import Mathlib

/-!
Verification of the redis-clone-cpp event-loop server core.

C++ byte strings are modelled as lists of characters (`Str`); all inputs of
interest are ASCII, so one `Char` stands for one byte.  The keyspace
(`std::unordered_map<std::string, std::string>`) is modelled as an
association list with insert-or-assign and erase operations; all statements
about keyspaces are made through `store_get`, so the list order never
matters.
-/

namespace RedisClone

/-- Byte strings of the C++ program, modelled as lists of characters. -/
abbrev Str := List Char

/-- Conversion from Lean string literals to the byte-string model. -/
def strOf (s : String) : Str := s.data

/-- The whitespace set of `std::istringstream` extraction (`isspace` in the
default C locale): space, tab, newline, vertical tab, form feed, carriage
return. -/
def isWs (c : Char) : Bool :=
  c = ' ' || c = '\t' || c = '\n' || c = '\x0b' || c = '\x0c' || c = '\r'

/-- ASCII uppercasing of one character, as `std::toupper` does for the
arguments this program feeds it. -/
def upChar (c : Char) : Char := c.toUpper

/-- ASCII uppercasing of a byte string (the loop in `extract_command`). -/
def upStr (s : Str) : Str := s.map upChar

/-- One `iss >> tok` extraction: skip leading whitespace, take the maximal
whitespace-free run, return it with the rest of the input. -/
def nextToken (s : Str) : Str × Str :=
  let s1 := s.dropWhile isWs
  (s1.takeWhile (fun c => !isWs c), s1.dropWhile (fun c => !isWs c))

/-- Parsed components of a command line (`redis_utils::CommandParts`). -/
structure CommandParts where
  command : Str
  key : Str
  value : Str
deriving DecidableEq, Repr

/-- `redis_utils::extract_command`: read up to three whitespace-separated
tokens from the line, uppercase the first.  When a token is missing the
corresponding field stays empty, exactly as the failed `iss >> x`
extractions leave the C++ strings empty. -/
def extract_command (input : Str) : CommandParts :=
  let p1 := nextToken input
  let p2 := nextToken p1.2
  let p3 := nextToken p2.2
  { command := upStr p1.1, key := p2.1, value := p3.1 }

/-- The keyspace: entries of the `std::unordered_map`, keys pairwise
distinct. -/
abbrev Keyspace := List (Str × Str)

/-- `data.find(key)` followed by dereference: the value stored under a key,
if any. -/
def store_get (d : Keyspace) (k : Str) : Option Str :=
  match d with
  | [] => none
  | (k1, v) :: rest => if k1 = k then some v else store_get rest k

/-- `data.find(key) != data.end()`. -/
def store_contains (d : Keyspace) (k : Str) : Bool :=
  (store_get d k).isSome

/-- `data[key] = value`: assign in place when the key is present, append a
fresh entry otherwise. -/
def store_set (d : Keyspace) (k v : Str) : Keyspace :=
  match d with
  | [] => [(k, v)]
  | (k1, v1) :: rest =>
      if k1 = k then (k, v) :: rest else (k1, v1) :: store_set rest k v

/-- `data.erase(key)`: drop the entry holding the key.  Keys are pairwise
distinct in the C++ map, so dropping every match coincides with dropping
the one entry the map holds. -/
def store_erase (d : Keyspace) (k : Str) : Keyspace :=
  match d with
  | [] => []
  | (k1, v1) :: rest =>
      if k1 = k then store_erase rest k else (k1, v1) :: store_erase rest k

/-- `redis_utils::process_command_with_store` specialised to the unordered
map: dispatch one parsed command against the keyspace, producing the RESP
reply and the updated keyspace. -/
def process_command_with_store (parts : CommandParts) (d : Keyspace) :
    Str × Keyspace :=
  if parts.command = strOf "SET" then
    if parts.key = [] ∨ parts.value = [] then
      (strOf "-ERR wrong number of arguments for \x27set\x27 command\r\n", d)
    else
      (strOf "+OK\r\n", store_set d parts.key parts.value)
  else if parts.command = strOf "GET" then
    if parts.key = [] then
      (strOf "-ERR wrong number of arguments for \x27get\x27 command\r\n", d)
    else
      match store_get d parts.key with
      | some v => (strOf "$" ++ strOf (Nat.repr v.length) ++ strOf "\r\n" ++ v ++ strOf "\r\n", d)
      | none => (strOf "$-1\r\n", d)
  else if parts.command = strOf "DEL" then
    if parts.key = [] then
      (strOf "-ERR wrong number of arguments for \x27del\x27 command\r\n", d)
    else
      let deleted : Nat := if store_contains d parts.key then 1 else 0
      (strOf ":" ++ strOf (Nat.repr deleted) ++ strOf "\r\n", store_erase d parts.key)
  else if parts.command = strOf "EXISTS" then
    if parts.key = [] then
      (strOf "-ERR wrong number of arguments for \x27exists\x27 command\r\n", d)
    else
      let ex : Nat := if store_contains d parts.key then 1 else 0
      (strOf ":" ++ strOf (Nat.repr ex) ++ strOf "\r\n", d)
  else if parts.command = strOf "QUIT" then
    (strOf "+OK\r\n", d)
  else if parts.command = strOf "BGSAVE" then
    (strOf "+BGSAVE\r\n", d)
  else
    (strOf "-ERR unknown command \x27" ++ parts.command ++ strOf "\x27\r\n", d)

end RedisClone

namespace RedisClone

/-- `RedisServerEventLoop::background_save`: the reply depends on the fork
outcome, which the pure model takes as a parameter. -/
def background_save (fork_ok : Bool) : Str :=
  if fork_ok then strOf "+Background saving started\r\n"
  else strOf "-ERR Background save failed\r\n"

/-- The change-counting test of `RedisServerEventLoop::process_command`:
the reply starts with the three characters of a plus followed by OK, or
with a colon followed by the digit one. -/
def counts_change (resp : Str) : Bool :=
  match resp with
  | '+' :: r => r.take 2 = strOf "OK"
  | ':' :: c :: _ => c = '1'
  | _ => false

/-- Event-loop server state touched by command dispatch: the keyspace and
the snapshot-trigger change counter. -/
structure ServerState where
  data : Keyspace
  changes_since_save : Int
deriving DecidableEq, Repr

/-- `RedisServerEventLoop::process_command`: run the store dispatcher, give
BGSAVE its forked reply, and count successful SET and DEL commands against
the snapshot trigger. -/
def process_command (fork_ok : Bool) (st : ServerState) (command : Str) :
    ServerState × Str :=
  let parts := extract_command command
  let r := process_command_with_store parts st.data
  if parts.command = strOf "BGSAVE" then
    ({ st with data := r.2 }, background_save fork_ok)
  else
    ({ data := r.2,
       changes_since_save :=
         if counts_change r.1 ∧
             (parts.command = strOf "SET" ∨ parts.command = strOf "DEL") then
           st.changes_since_save + 1
         else st.changes_since_save },
     r.1)

/-- `RedisServerEventLoop::should_save_snapshot`, with the elapsed seconds
since the last save taken as a parameter. -/
def should_save_snapshot (seconds_since_last_save changes_since_save : Int) :
    Bool :=
  if seconds_since_last_save ≥ 900 ∧ changes_since_save > 1 then true
  else if seconds_since_last_save ≥ 300 ∧ changes_since_save ≥ 10 then true
  else if seconds_since_last_save ≥ 60 ∧ changes_since_save ≥ 10000 then true
  else false

theorem store_get_set_self (d : Keyspace) (k v : Str) :
    store_get (store_set d k v) k = some v := by
  induction d with
  | nil => simp [store_set, store_get]
  | cons e rest ih =>
      by_cases h : e.1 = k
      · simp [store_set, h, store_get]
      · simp [store_set, h, store_get, ih]

theorem store_get_erase_self (d : Keyspace) (k : Str) :
    store_get (store_erase d k) k = none := by
  induction d with
  | nil => simp [store_erase, store_get]
  | cons e rest ih =>
      by_cases h : e.1 = k
      · simp [store_erase, h, ih]
      · simp [store_erase, h, store_get, ih]

end RedisClone

namespace RedisClone

theorem store_get_set_ne (d : Keyspace) (k1 v k : Str) (h : k1 ≠ k) :
    store_get (store_set d k1 v) k = store_get d k := by
  induction d with
  | nil => simp [store_set, store_get, h]
  | cons e rest ih =>
      obtain ⟨ek, ev⟩ := e
      by_cases he : ek = k1
      · subst he
        simp [store_set, store_get, h]
      · simp [store_set, he, store_get, ih]

theorem pcws_set_ok (k v : Str) (d : Keyspace) (hk : k ≠ []) (hv : v ≠ []) :
    process_command_with_store ⟨strOf "SET", k, v⟩ d =
      (strOf "+OK\r\n", store_set d k v) := by
  simp [process_command_with_store, hk, hv]

theorem pcws_del (k v : Str) (d : Keyspace) (hk : k ≠ []) :
    process_command_with_store ⟨strOf "DEL", k, v⟩ d =
      ((if store_contains d k then strOf ":1\r\n" else strOf ":0\r\n"),
        store_erase d k) := by
  have h1 : ¬ (strOf "DEL" = strOf "SET") := by decide
  have h2 : ¬ (strOf "DEL" = strOf "GET") := by decide
  simp [process_command_with_store, hk, h1, h2]
  by_cases hc : store_contains d k <;> simp [hc] <;> decide

theorem pcws_exists_eval (k v : Str) (d : Keyspace) (hk : k ≠ []) :
    process_command_with_store ⟨strOf "EXISTS", k, v⟩ d =
      ((if store_contains d k then strOf ":1\r\n" else strOf ":0\r\n"), d) := by
  have h1 : ¬ (strOf "EXISTS" = strOf "SET") := by decide
  have h2 : ¬ (strOf "EXISTS" = strOf "GET") := by decide
  have h3 : ¬ (strOf "EXISTS" = strOf "DEL") := by decide
  simp [process_command_with_store, hk, h1, h2, h3]
  by_cases hc : store_contains d k <;> simp [hc] <;> decide

theorem pcws_get_eval (k v : Str) (d : Keyspace) (hk : k ≠ []) :
    process_command_with_store ⟨strOf "GET", k, v⟩ d =
      (match store_get d k with
       | some w =>
          (strOf "$" ++ strOf (Nat.repr w.length) ++ strOf "\r\n" ++ w ++ strOf "\r\n", d)
       | none => (strOf "$-1\r\n", d)) := by
  have h1 : ¬ (strOf "GET" = strOf "SET") := by decide
  simp [process_command_with_store, hk, h1]

/-- Claim C10: whenever the dispatcher's reply opens with the error marker
(wrong arity or unknown verb), the keyspace handed back is exactly the
keyspace handed in. -/
theorem error_reply_preserves_store (parts : CommandParts) (d : Keyspace)
    (h : (process_command_with_store parts d).1.head? = some '-') :
    (process_command_with_store parts d).2 = d := by
  unfold process_command_with_store at h ⊢
  split_ifs at h ⊢ <;>
    solve
      | rfl
      | (cases hg : store_get d parts.key <;> simp [hg])
      | (exfalso; simp [strOf] at h)

/-- Witness for C10: the unknown command FOO gets an error reply and leaves
a one-entry keyspace untouched. -/
theorem error_reply_preserves_store_witness :
    (process_command_with_store ⟨strOf "FOO", strOf "x", []⟩
        [(strOf "a", strOf "b")]).1.head? = some '-' ∧
    (process_command_with_store ⟨strOf "FOO", strOf "x", []⟩
        [(strOf "a", strOf "b")]).2 = [(strOf "a", strOf "b")] :=
  ⟨by decide, error_reply_preserves_store _ _ (by decide)⟩

/-- The keyspace reached by dispatching a SET command for key k once per
value in vs, in order, starting from d. -/
def run_sets (k : Str) (vs : List Str) (d : Keyspace) : Keyspace :=
  vs.foldl (fun d v => (process_command_with_store ⟨strOf "SET", k, v⟩ d).2) d

/-- Claim C5: after SET(k,v_1) ... SET(k,v_n) with no intervening DEL, GET k
replies the bulk string of the last value v_n. -/
theorem get_returns_last_set_value (k : Str) (vs : List Str) (vn : Str)
    (d : Keyspace) (hk : k ≠ []) (hv : ∀ v ∈ vs, v ≠ []) (hvn : vn ≠ []) :
    (process_command_with_store ⟨strOf "GET", k, []⟩
        (run_sets k (vs ++ [vn]) d)).1
      = strOf "$" ++ strOf (Nat.repr vn.length) ++ strOf "\r\n" ++ vn ++ strOf "\r\n" := by
  have hlast : store_get (run_sets k (vs ++ [vn]) d) k = some vn := by
    induction vs generalizing d with
    | nil => simp [run_sets, pcws_set_ok k vn d hk hvn, store_get_set_self]
    | cons v vs ih =>
        have hv0 : v ≠ [] := hv v (by simp)
        have hstep : run_sets k ((v :: vs) ++ [vn]) d
            = run_sets k (vs ++ [vn]) (store_set d k v) := by
          simp [run_sets, pcws_set_ok k v d hk hv0]
        rw [hstep]
        exact ih (store_set d k v) (fun w hw => hv w (List.mem_cons_of_mem _ hw))
  rw [pcws_get_eval k [] _ hk, hlast]

/-- Witness for C5: SET foo x, SET foo bar, then GET foo replies bar. -/
theorem get_returns_last_set_value_witness :
    (process_command_with_store ⟨strOf "GET", strOf "foo", []⟩
        (run_sets (strOf "foo") [strOf "x", strOf "bar"] [])).1
      = strOf "$3\r\nbar\r\n" := by
  have h := get_returns_last_set_value (strOf "foo") [strOf "x"] (strOf "bar")
    [] (by decide) (by decide) (by decide)
  rw [show [strOf "x"] ++ [strOf "bar"] = [strOf "x", strOf "bar"] from rfl] at h
  rw [h]
  decide

/-- Claim C6: DEL k replies 1 or 0 according to presence, and afterwards
EXISTS k replies 0 and GET k replies the null bulk. -/
theorem del_then_absent (d : Keyspace) (k : Str) (hk : k ≠ []) :
    (process_command_with_store ⟨strOf "DEL", k, []⟩ d).1
        = (if store_contains d k then strOf ":1\r\n" else strOf ":0\r\n") ∧
    (process_command_with_store ⟨strOf "EXISTS", k, []⟩
        (process_command_with_store ⟨strOf "DEL", k, []⟩ d).2).1 = strOf ":0\r\n" ∧
    (process_command_with_store ⟨strOf "GET", k, []⟩
        (process_command_with_store ⟨strOf "DEL", k, []⟩ d).2).1 = strOf "$-1\r\n" := by
  have h2 : (process_command_with_store ⟨strOf "DEL", k, []⟩ d).2 = store_erase d k := by
    rw [pcws_del k [] d hk]
  have hget : store_get (store_erase d k) k = none := store_get_erase_self d k
  refine ⟨by rw [pcws_del k [] d hk], ?_, ?_⟩
  · rw [h2, pcws_exists_eval k [] _ hk]
    simp [store_contains, hget]
  · rw [h2, pcws_get_eval k [] _ hk, hget]

/-- Witness for C6: deleting the present key a replies 1 and leaves it
absent for EXISTS and GET. -/
theorem del_then_absent_witness :
    ((process_command_with_store ⟨strOf "DEL", strOf "a", []⟩
        [(strOf "a", strOf "b")]).1 = strOf ":1\r\n" ∧
      (process_command_with_store ⟨strOf "EXISTS", strOf "a", []⟩
        (process_command_with_store ⟨strOf "DEL", strOf "a", []⟩
          [(strOf "a", strOf "b")]).2).1 = strOf ":0\r\n" ∧
      (process_command_with_store ⟨strOf "GET", strOf "a", []⟩
        (process_command_with_store ⟨strOf "DEL", strOf "a", []⟩
          [(strOf "a", strOf "b")]).2).1 = strOf "$-1\r\n") := by
  have h := del_then_absent [(strOf "a", strOf "b")] (strOf "a") (by decide)
  refine ⟨?_, h.2.1, h.2.2⟩
  rw [h.1]
  decide

/-- Claim C4: the snapshot trigger returns true exactly when one of the
three Redis-style rows holds, and two successful SETs after 901 elapsed
seconds fire it. -/
theorem snapshot_trigger_iff :
    (∀ dt c : Int, should_save_snapshot dt c = true ↔
        (dt ≥ 900 ∧ c > 1) ∨ (dt ≥ 300 ∧ c ≥ 10) ∨ (dt ≥ 60 ∧ c ≥ 10000)) ∧
    ((process_command true
          ((process_command true ⟨[], 0⟩ (strOf "SET a 1")).1)
          (strOf "SET b 2")).1.changes_since_save = 2 ∧
      should_save_snapshot 901 2 = true) := by
  refine ⟨?_, by decide, by decide⟩
  intro dt c
  unfold should_save_snapshot
  split_ifs with h1 h2 h3 <;> simp_all

end RedisClone

namespace RedisClone

/-- Modelled from the spec: no request formatter exists in the source tree
(the round-trip clause of the spec refers to the client side), so the
formatted request line is the three parts joined by single spaces, matching
the spec's line "verb key value". -/
def format_request (p : CommandParts) : Str :=
  p.command ++ strOf " " ++ p.key ++ strOf " " ++ p.value

theorem takeWhile_token (tok : Str) (rest : Str)
    (h : ∀ c ∈ tok, isWs c = false) :
    (tok ++ ' ' :: rest).takeWhile (fun c => !isWs c) = tok := by
  induction tok with
  | nil => simp [List.takeWhile, isWs]
  | cons c t ih =>
      simp only [List.cons_append, List.takeWhile_cons, h c (by simp)]
      simp [ih (fun c hc => h c (by simp [hc]))]

theorem dropWhile_token (tok : Str) (rest : Str)
    (h : ∀ c ∈ tok, isWs c = false) :
    (tok ++ ' ' :: rest).dropWhile (fun c => !isWs c) = ' ' :: rest := by
  induction tok with
  | nil => simp [List.dropWhile, isWs]
  | cons c t ih =>
      simp only [List.cons_append, List.dropWhile_cons, h c (by simp)]
      simp [ih (fun c hc => h c (by simp [hc]))]

theorem takeWhile_all_token (tok : Str) (h : ∀ c ∈ tok, isWs c = false) :
    tok.takeWhile (fun c => !isWs c) = tok := by
  induction tok with
  | nil => simp
  | cons c t ih =>
      simp only [List.takeWhile_cons, h c (by simp)]
      simp [ih (fun c hc => h c (by simp [hc]))]

theorem dropWhile_all_token (tok : Str) (h : ∀ c ∈ tok, isWs c = false) :
    tok.dropWhile (fun c => !isWs c) = [] := by
  induction tok with
  | nil => simp
  | cons c t ih =>
      simp only [List.dropWhile_cons, h c (by simp)]
      simp [ih (fun c hc => h c (by simp [hc]))]

theorem nextToken_sep (tok rest : Str) (hne : tok ≠ [])
    (h : ∀ c ∈ tok, isWs c = false) :
    nextToken (tok ++ ' ' :: rest) = (tok, ' ' :: rest) := by
  obtain ⟨c, t, rfl⟩ : ∃ c t, tok = c :: t := by
    cases tok with
    | nil => exact absurd rfl hne
    | cons c t => exact ⟨c, t, rfl⟩
  unfold nextToken
  have hc : isWs c = false := h c (by simp)
  simp only [List.cons_append, List.dropWhile_cons, hc]
  simp only [Bool.false_eq_true, if_false]
  rw [show (c :: (t ++ ' ' :: rest)) = (c :: t) ++ ' ' :: rest from rfl]
  rw [takeWhile_token _ _ h, dropWhile_token _ _ h]

theorem nextToken_last (tok : Str) (hne : tok ≠ [])
    (h : ∀ c ∈ tok, isWs c = false) :
    nextToken tok = (tok, []) := by
  obtain ⟨c, t, rfl⟩ : ∃ c t, tok = c :: t := by
    cases tok with
    | nil => exact absurd rfl hne
    | cons c t => exact ⟨c, t, rfl⟩
  unfold nextToken
  have hc : isWs c = false := h c (by simp)
  simp only [List.dropWhile_cons, hc]
  simp only [Bool.false_eq_true, if_false]
  rw [takeWhile_all_token _ h, dropWhile_all_token _ h]

theorem nextToken_skip_space (s : Str) : nextToken (' ' :: s) = nextToken s := by
  unfold nextToken
  simp [List.dropWhile_cons, isWs]

/-- Counterexample for C7: the round-trip fails as stated, both for a
lowercase verb (the parser uppercases it) and for an empty key followed by
a non-empty value (the tokens shift left); all components are
whitespace-free. -/
theorem codec_roundtrip_counterexample :
    extract_command (format_request ⟨strOf "set", strOf "k", strOf "v"⟩)
        ≠ ⟨strOf "set", strOf "k", strOf "v"⟩ ∧
    extract_command (format_request ⟨strOf "GET", [], strOf "v"⟩)
        ≠ ⟨strOf "GET", [], strOf "v"⟩ := by decide

/-- Claim C7 as amended: for parts with non-empty, whitespace-free
components whose verb is fixed by ASCII uppercasing, the round-trip holds,
and any bytes after the third token are ignored by the parser. -/
theorem codec_roundtrip_amended (p : CommandParts)
    (hc : p.command ≠ []) (hcw : ∀ c ∈ p.command, isWs c = false)
    (hcu : upStr p.command = p.command)
    (hk : p.key ≠ []) (hkw : ∀ c ∈ p.key, isWs c = false)
    (hv : p.value ≠ []) (hvw : ∀ c ∈ p.value, isWs c = false) :
    extract_command (format_request p) = p ∧
    ∀ extra : Str,
      extract_command (format_request p ++ strOf " " ++ extra) = p := by
  obtain ⟨cmd, key, value⟩ := p
  simp only [format_request] at *
  constructor
  · show extract_command (cmd ++ strOf " " ++ key ++ strOf " " ++ value) = _
    have hshape : cmd ++ strOf " " ++ key ++ strOf " " ++ value
        = cmd ++ ' ' :: (key ++ ' ' :: value) := by
      simp [strOf, List.append_assoc]
    rw [hshape]
    unfold extract_command
    rw [nextToken_sep cmd _ hc hcw]
    simp only
    rw [nextToken_skip_space, nextToken_sep key _ hk hkw]
    simp only
    rw [nextToken_skip_space, nextToken_last value hv hvw]
    simp [hcu]
  · intro extra
    have hshape : cmd ++ strOf " " ++ key ++ strOf " " ++ value ++ strOf " " ++ extra
        = cmd ++ ' ' :: (key ++ ' ' :: (value ++ ' ' :: extra)) := by
      simp [strOf, List.append_assoc]
    rw [hshape]
    unfold extract_command
    rw [nextToken_sep cmd _ hc hcw]
    simp only
    rw [nextToken_skip_space, nextToken_sep key _ hk hkw]
    simp only
    rw [nextToken_skip_space, nextToken_sep value _ hv hvw]
    simp [hcu]

/-- Witness for the amended C7: SET k1 v1 round-trips, and trailing junk
after the third token is dropped. -/
theorem codec_roundtrip_amended_witness :
    extract_command (format_request ⟨strOf "SET", strOf "k1", strOf "v1"⟩)
        = ⟨strOf "SET", strOf "k1", strOf "v1"⟩ ∧
    extract_command (format_request ⟨strOf "SET", strOf "k1", strOf "v1"⟩
        ++ strOf " " ++ strOf "junk extra")
        = ⟨strOf "SET", strOf "k1", strOf "v1"⟩ := by
  have h := codec_roundtrip_amended ⟨strOf "SET", strOf "k1", strOf "v1"⟩
    (by decide) (by decide) (by decide) (by decide) (by decide)
    (by decide) (by decide)
  exact ⟨h.1, h.2 (strOf "junk extra")⟩

end RedisClone

namespace RedisClone

theorem pcws_bgrewriteaof (d : Keyspace) :
    process_command_with_store ⟨strOf "BGREWRITEAOF", [], []⟩ d
      = (strOf "-ERR unknown command \x27BGREWRITEAOF\x27\r\n", d) := by
  have h1 : ¬ (strOf "BGREWRITEAOF" = strOf "SET") := by decide
  have h2 : ¬ (strOf "BGREWRITEAOF" = strOf "GET") := by decide
  have h3 : ¬ (strOf "BGREWRITEAOF" = strOf "DEL") := by decide
  have h4 : ¬ (strOf "BGREWRITEAOF" = strOf "EXISTS") := by decide
  have h5 : ¬ (strOf "BGREWRITEAOF" = strOf "QUIT") := by decide
  have h6 : ¬ (strOf "BGREWRITEAOF" = strOf "BGSAVE") := by decide
  simp [process_command_with_store, h1, h2, h3, h4, h5, h6]
  decide

/-- Counterexample for C8: BGREWRITEAOF is answered with the
unknown-command error, not the background-rewrite reply, on the empty
server state. -/
theorem bgrewriteaof_counterexample :
    (process_command true ⟨[], 0⟩ (strOf "BGREWRITEAOF")).2
        = strOf "-ERR unknown command \x27BGREWRITEAOF\x27\r\n" ∧
    (process_command true ⟨[], 0⟩ (strOf "BGREWRITEAOF")).2
        ≠ strOf "+Background AOF rewrite started\r\n" := by decide

/-- Claim C8 as amended: BGREWRITEAOF is not a recognized verb; the
event-loop dispatcher answers it with the unknown-command error and leaves
the server state unchanged. -/
theorem bgrewriteaof_unknown_command (fork_ok : Bool) (st : ServerState) :
    (process_command fork_ok st (strOf "BGREWRITEAOF")).2
        = strOf "-ERR unknown command \x27BGREWRITEAOF\x27\r\n" ∧
    (process_command fork_ok st (strOf "BGREWRITEAOF")).1 = st := by
  have hparts : extract_command (strOf "BGREWRITEAOF")
      = ⟨strOf "BGREWRITEAOF", [], []⟩ := by decide
  have hbg : ¬ (strOf "BGREWRITEAOF" = strOf "BGSAVE") := by decide
  have hcc : counts_change (strOf "-ERR unknown command \x27BGREWRITEAOF\x27\r\n")
      = false := by decide
  have hset : ¬ (strOf "BGREWRITEAOF" = strOf "SET") := by decide
  have hdel : ¬ (strOf "BGREWRITEAOF" = strOf "DEL") := by decide
  simp [process_command, hparts, pcws_bgrewriteaof, hbg, hcc, hset, hdel]

/-- First occurrence split: the prefix before the first separator and the
suffix after it (`std::string::find` plus `substr`/`erase`). -/
def splitAtChar (sep : Char) : Str → Option (Str × Str)
  | [] => none
  | c :: rest =>
      if c = sep then some ([], rest)
      else
        match splitAtChar sep rest with
        | some (a, b) => some (c :: a, b)
        | none => none

theorem splitAtChar_append (sep : Char) (a b : Str) (h : sep ∉ a) :
    splitAtChar sep (a ++ sep :: b) = some (a, b) := by
  induction a with
  | nil => simp [splitAtChar]
  | cons c t ih =>
      have hc : ¬ (c = sep) := fun hh => h (by simp [hh])
      simp [splitAtChar, hc, ih (fun hmem => h (List.mem_cons_of_mem _ hmem))]

theorem splitAtChar_none_of_not_mem (sep : Char) (s : Str) (h : sep ∉ s) :
    splitAtChar sep s = none := by
  induction s with
  | nil => simp [splitAtChar]
  | cons c t ih =>
      have hc : ¬ (c = sep) := fun hh => h (by simp [hh])
      simp [splitAtChar, hc, ih (fun hmem => h (List.mem_cons_of_mem _ hmem))]

theorem splitAtChar_rest_length (sep : Char) (s a b : Str)
    (h : splitAtChar sep s = some (a, b)) : b.length < s.length := by
  induction s generalizing a b with
  | nil => simp [splitAtChar] at h
  | cons c t ih =>
      by_cases hc : c = sep
      · simp [splitAtChar, hc] at h
        simp [h.2]
      · simp only [splitAtChar, hc, if_false] at h
        cases hsp : splitAtChar sep t with
        | none => rw [hsp] at h; simp at h
        | some p =>
            obtain ⟨a2, b2⟩ := p
            rw [hsp] at h
            simp at h
            have := ih a2 b2 hsp
            simp [← h.2]
            omega

/-- Per-connection state (`ClientState` in server.h); the socket handle is
the key of the client map and is not part of the modelled state. -/
structure ClientState where
  read_buffer : Str
  write_buffer : Str
  should_disconnect : Bool
deriving DecidableEq, Repr

/-- The carriage-return strip inside the framing loop: drop a final CR from
the extracted frame when present. -/
def stripCR (line : Str) : Str :=
  if line.getLast? = some '\r' then line.dropLast else line

/-- The framing loop of `handle_client_data` (Block 3): while the read
buffer holds a newline, cut the frame before it, strip one CR, skip empty
frames, enqueue +OK and flag disconnect for QUIT, otherwise dispatch and
enqueue the reply. -/
def process_frames (fork_ok : Bool) (st : ServerState) (c : ClientState) :
    ServerState × ClientState :=
  match h : splitAtChar '\n' c.read_buffer with
  | none => (st, c)
  | some (line, rest) =>
      let cmd := stripCR line
      if cmd = [] then
        process_frames fork_ok st { c with read_buffer := rest }
      else if (extract_command cmd).command = strOf "QUIT" then
        process_frames fork_ok st
          { c with read_buffer := rest,
                   write_buffer := c.write_buffer ++ strOf "+OK\r\n",
                   should_disconnect := true }
      else
        let r := process_command fork_ok st cmd
        process_frames fork_ok r.1
          { c with read_buffer := rest, write_buffer := c.write_buffer ++ r.2 }
  termination_by c.read_buffer.length
  decreasing_by
    all_goals simpa using splitAtChar_rest_length '\n' c.read_buffer _ _ h

/-- `handle_client_data`: a successful read appends the bytes to the read
buffer and runs the framing loop; a read that returns no bytes (EOF or
error) only flags the connection for disconnect. -/
def handle_client_data (fork_ok : Bool) (st : ServerState) (c : ClientState)
    (bytes : Str) : ServerState × ClientState :=
  if bytes = [] then (st, { c with should_disconnect := true })
  else process_frames fork_ok st { c with read_buffer := c.read_buffer ++ bytes }

/-- The effect of one complete frame on (keyspace state, emitted replies,
disconnect flag): the body of the framing loop, with the reply appended to
the output accumulator. -/
def dispatch_frame (fork_ok : Bool) (acc : ServerState × Str × Bool)
    (line : Str) : ServerState × Str × Bool :=
  let cmd := stripCR line
  if cmd = [] then acc
  else if (extract_command cmd).command = strOf "QUIT" then
    (acc.1, acc.2.1 ++ strOf "+OK\r\n", true)
  else
    let r := process_command fork_ok acc.1 cmd
    (r.1, acc.2.1 ++ r.2, acc.2.2)

/-- Newline-terminated frames followed by a trailing remainder. -/
def joinNL : List Str → Str → Str
  | [], rest => rest
  | l :: ls, rest => l ++ '\n' :: joinNL ls rest

theorem dispatch_frame_out_append (fork_ok : Bool) (lines : List Str)
    (st : ServerState) (out : Str) (sd : Bool) :
    lines.foldl (dispatch_frame fork_ok) (st, out, sd)
      = ((lines.foldl (dispatch_frame fork_ok) (st, [], sd)).1,
         out ++ (lines.foldl (dispatch_frame fork_ok) (st, [], sd)).2.1,
         (lines.foldl (dispatch_frame fork_ok) (st, [], sd)).2.2) := by
  induction lines generalizing st out sd with
  | nil => simp
  | cons l ls ih =>
      simp only [List.foldl_cons]
      by_cases h1 : stripCR l = []
      · simp only [dispatch_frame, h1, if_pos rfl]
        exact ih st out sd
      · by_cases h2 : (extract_command (stripCR l)).command = strOf "QUIT"
        · simp only [dispatch_frame, h1, h2, if_false, if_true, List.nil_append]
          rw [ih st (out ++ strOf "+OK\r\n") true, ih st (strOf "+OK\r\n") true]
          simp
        · simp only [dispatch_frame, h1, h2, if_false, List.nil_append]
          rw [ih _ (out ++ _) sd, ih _ (process_command fork_ok st (stripCR l)).2 sd]
          simp

/-- Claim C2: when the read buffer consists of newline-terminated frames
followed by a newline-free remainder, the framing loop dispatches every
frame in order, appends all replies to the write buffer in that order, and
leaves exactly the remainder buffered. -/
theorem framing_dispatches_all_frames (fork_ok : Bool) (st : ServerState)
    (c : ClientState) (lines : List Str) (rest : Str)
    (hl : ∀ l ∈ lines, '\n' ∉ l) (hr : '\n' ∉ rest)
    (hbuf : c.read_buffer = joinNL lines rest) :
    process_frames fork_ok st c
      = ((lines.foldl (dispatch_frame fork_ok)
            (st, [], c.should_disconnect)).1,
         { read_buffer := rest,
           write_buffer := c.write_buffer ++
             (lines.foldl (dispatch_frame fork_ok)
               (st, [], c.should_disconnect)).2.1,
           should_disconnect :=
             (lines.foldl (dispatch_frame fork_ok)
               (st, [], c.should_disconnect)).2.2 }) := by
  induction lines generalizing st c with
  | nil =>
      obtain ⟨rb, wb, sd⟩ := c
      simp only [joinNL] at hbuf
      subst hbuf
      unfold process_frames
      rw [splitAtChar_none_of_not_mem '\n' _ hr]
      simp
  | cons l ls ih =>
      obtain ⟨rb, wb, sd⟩ := c
      simp only [joinNL] at hbuf
      subst hbuf
      unfold process_frames
      simp only
      rw [splitAtChar_append '\n' _ _ (hl l (by simp))]
      simp only [List.foldl_cons]
      by_cases h1 : stripCR l = []
      · rw [if_pos h1]
        rw [ih st ⟨joinNL ls rest, wb, sd⟩ (fun w hw => hl w (by simp [hw])) rfl]
        simp [dispatch_frame, h1]
      · rw [if_neg h1]
        by_cases h2 : (extract_command (stripCR l)).command = strOf "QUIT"
        · rw [if_pos h2]
          rw [ih st ⟨joinNL ls rest, wb ++ strOf "+OK\r\n", true⟩
            (fun w hw => hl w (by simp [hw])) rfl]
          simp only [dispatch_frame, h1, h2, if_false, if_true, List.nil_append]
          rw [dispatch_frame_out_append fork_ok ls st (strOf "+OK\r\n") true]
          simp
        · rw [if_neg h2]
          rw [ih (process_command fork_ok st (stripCR l)).1
            ⟨joinNL ls rest, wb ++ (process_command fork_ok st (stripCR l)).2, sd⟩
            (fun w hw => hl w (by simp [hw])) rfl]
          simp only [dispatch_frame, h1, h2, if_false, List.nil_append]
          rw [dispatch_frame_out_append fork_ok ls _
            (process_command fork_ok st (stripCR l)).2 sd]
          simp

end RedisClone

namespace RedisClone

/-- Witness for C2: the three-command pipeline arriving in one read yields
+OK, +OK, then the bulk reply for v1, in order, with an empty remainder. -/
theorem framing_dispatches_all_frames_witness :
    process_frames true ⟨[], 0⟩
        ⟨strOf "SET k1 v1\r\nSET k2 v2\r\nGET k1\r\n", [], false⟩
      = (⟨[(strOf "k1", strOf "v1"), (strOf "k2", strOf "v2")], 2⟩,
         ⟨[], strOf "+OK\r\n+OK\r\n$2\r\nv1\r\n", false⟩) := by
  rw [framing_dispatches_all_frames true ⟨[], 0⟩ _
    [strOf "SET k1 v1\r", strOf "SET k2 v2\r", strOf "GET k1\r"] []
    (by decide) (by decide) (by decide)]
  decide

/-- The send-and-cleanup pass of the run loop for one connection: when the
write buffer is non-empty a send is attempted (its return value taken as a
parameter), a positive return erases the sent prefix, and the connection is
queued for close exactly when the disconnect flag is set and the write
buffer has drained. -/
def drain_step (sent : Int) (c : ClientState) : ClientState × Bool :=
  let c2 := if c.write_buffer ≠ [] ∧ sent > 0 then
      { c with write_buffer := c.write_buffer.drop sent.toNat } else c
  (c2, c2.should_disconnect && c2.write_buffer.isEmpty)

/-- Claim C9: a connection is queued for close only once its write buffer
is empty; a QUIT frame first enqueues +OK and sets the disconnect flag; and
a flagged connection whose buffer still holds bytes is not closed. -/
theorem quit_graceful_drain :
    (∀ (sent : Int) (c : ClientState),
        (drain_step sent c).2 = true → (drain_step sent c).1.write_buffer = []) ∧
    (∀ (fork_ok : Bool) (st : ServerState) (wb : Str) (sd : Bool),
        process_frames fork_ok st ⟨strOf "QUIT\n", wb, sd⟩
          = (st, ⟨[], wb ++ strOf "+OK\r\n", true⟩)) ∧
    (∀ (sent : Int) (c : ClientState),
        (drain_step sent c).1.write_buffer ≠ [] →
        (drain_step sent c).2 = false) := by
  refine ⟨?_, ?_, ?_⟩
  · intro sent c h
    simp only [drain_step, Bool.and_eq_true, List.isEmpty_iff] at h
    simp only [drain_step]
    exact h.2
  · intro fork_ok st wb sd
    have h1 : splitAtChar '\n'
        ((⟨strOf "QUIT\n", wb, sd⟩ : ClientState).read_buffer)
        = some (strOf "QUIT", []) := rfl
    have hc1 : ¬ (stripCR (strOf "QUIT") = []) := by decide
    have hc2 : (extract_command (stripCR (strOf "QUIT"))).command
        = strOf "QUIT" := by decide
    rw [process_frames, h1]
    simp only [hc1, hc2, if_false, if_true]
    rw [process_frames]
    simp [splitAtChar]
  · intro sent c h
    simp only [drain_step] at h ⊢
    rw [Bool.and_eq_false_iff]
    right
    simp [List.isEmpty_iff, h]

/-- Witness for C9: QUIT enqueues +OK with the flag set; a partial send
leaves the flagged connection open; draining the rest allows the close. -/
theorem quit_graceful_drain_witness :
    process_frames true ⟨[], 0⟩ ⟨strOf "QUIT\n", [], false⟩
        = (⟨[], 0⟩, ⟨[], strOf "+OK\r\n", true⟩) ∧
    (drain_step 3 ⟨[], strOf "+OK\r\n", true⟩).2 = false ∧
    (drain_step 2 ⟨[], strOf "\r\n", true⟩).1.write_buffer = [] :=
  ⟨by
      have h := quit_graceful_drain.2.1 true ⟨[], 0⟩ [] false
      simpa using h,
    quit_graceful_drain.2.2 3 ⟨[], strOf "+OK\r\n", true⟩ (by decide),
    quit_graceful_drain.1 2 ⟨[], strOf "\r\n", true⟩ (by decide)⟩

end RedisClone

namespace RedisClone

/-- One key-value line of the snapshot body, four-space indented, as
written by `save_snapshot_to_file` (without separator). -/
def entry_line (e : Str × Str) : Str :=
  strOf "    \"" ++ e.1 ++ strOf "\": \"" ++ e.2 ++ strOf "\""

/-- The body of the data section: entry lines joined by a comma and a
newline (the writer prefixes every entry but the first with them). -/
def entries_text : Keyspace → Str
  | [] => []
  | [e] => entry_line e
  | e :: rest => entry_line e ++ strOf ",\n" ++ entries_text rest

/-- The exact file text produced by `save_snapshot_to_file`, one appended
chunk per stream insertion, with the formatted timestamp a parameter. -/
def snapshot_content (ts : Str) (d : Keyspace) : Str :=
  strOf "\x7b\n" ++
  strOf "  \"metadata\": \x7b\n" ++
  strOf "    \"version\": \"1.0\",\n" ++
  (strOf "    \"timestamp\": \"" ++ ts ++ strOf "\",\n") ++
  (strOf "    \"key_count\": " ++ strOf (Nat.repr d.length) ++ strOf "\n") ++
  strOf "  \x7d,\n" ++
  strOf "  \"data\": \x7b\n" ++
  entries_text d ++
  strOf "\n  \x7d\n" ++
  strOf "\x7d\n"

/-- `std::getline` applied repeatedly: each newline ends a line, and a
non-empty trailing chunk without a newline is a final line. -/
def getlines : Str → List Str
  | [] => []
  | c :: rest =>
      if c = '\n' then [] :: getlines rest
      else
        match getlines rest with
        | [] => [[c]]
        | l :: ls => (c :: l) :: ls

/-- Boolean prefix test on byte strings. -/
def isPrefixOfB : Str → Str → Bool
  | [], _ => true
  | _ :: _, [] => false
  | a :: as, b :: bs => a = b && isPrefixOfB as bs

/-- `std::string::find(needle) != npos`: the needle occurs somewhere in the
line. -/
def containsSub (needle : Str) : Str → Bool
  | [] => needle.isEmpty
  | c :: rest => isPrefixOfB needle (c :: rest) || containsSub needle rest

/-- The quote scan of `load_snapshot_from_file` on one line: key between
the first and second double quotes, value between the third and fourth;
fails when fewer than four quotes are found. -/
def parse_kv_line (line : Str) : Option (Str × Str) :=
  match splitAtChar '"' line with
  | none => none
  | some (_, r1) =>
    match splitAtChar '"' r1 with
    | none => none
    | some (key, r2) =>
      match splitAtChar '"' r2 with
      | none => none
      | some (_, r3) =>
        match splitAtChar '"' r3 with
        | none => none
        | some (value, _) => some (key, value)

/-- The line loop of `load_snapshot_from_file`: any line containing the
data-section marker flips the in-data flag and is skipped; before the data
section all lines are skipped; a line with a closing brace and no quote
ends the load; otherwise the first two quoted substrings are stored. -/
def load_lines : List Str → Bool → Keyspace → Keyspace
  | [], _, acc => acc
  | line :: rest, inData, acc =>
      if containsSub (strOf "\"data\":") line then load_lines rest true acc
      else if !inData then load_lines rest inData acc
      else if containsSub (strOf "\x7d") line && !containsSub (strOf "\"") line then acc
      else
        match parse_kv_line line with
        | some (k, v) => load_lines rest inData (store_set acc k v)
        | none => load_lines rest inData acc

/-- `load_snapshot_from_file`: when data/dump.json is absent the keyspace
stays empty, otherwise the file's lines are folded through the line loop
starting outside the data section. -/
def load_snapshot_from_file (content : Option Str) : Keyspace :=
  match content with
  | none => []
  | some s => load_lines (getlines s) false []

/-- The two persistence files as seen at startup: the contents of
data/appendonly.aof and data/dump.json, when each exists. -/
structure SnapshotFS where
  appendonly_aof : Option Str
  dump_json : Option Str

/-- The persistence step of the RedisServerEventLoop constructor: it calls
load_snapshot_from_file on data/dump.json and never opens the AOF file. -/
def startup_keyspace (fs : SnapshotFS) : Keyspace :=
  load_snapshot_from_file fs.dump_json

/-- Modelled from the spec: one replayed AOF line (section 4.4 Recovery)
is parsed with the command codec and applied directly to the keyspace;
unknown or malformed lines are skipped. -/
def apply_aof_line_spec (acc : Keyspace) (line : Str) : Keyspace :=
  let parts := extract_command line
  if parts.command = strOf "SET" ∧ parts.key ≠ [] ∧ parts.value ≠ [] then
    store_set acc parts.key parts.value
  else if parts.command = strOf "DEL" ∧ parts.key ≠ [] then
    store_erase acc parts.key
  else acc

/-- Modelled from the spec: `load_aof_from_file` replays the log
line-by-line into a fresh keyspace. -/
def load_aof_from_file_spec (content : Str) : Keyspace :=
  (getlines content).foldl apply_aof_line_spec []

/-- Modelled from the spec: the startup recovery order of section 4.4 --
when AOF is enabled and data/appendonly.aof exists, replay it (the AOF is
authoritative); else load the snapshot; else start empty. -/
def startup_keyspace_spec (aof_enabled : Bool) (fs : SnapshotFS) : Keyspace :=
  match fs.appendonly_aof with
  | some content =>
      if aof_enabled then load_aof_from_file_spec content
      else load_snapshot_from_file fs.dump_json
  | none => load_snapshot_from_file fs.dump_json

end RedisClone

namespace RedisClone

theorem getlines_cons (line rest : Str) (h : '\n' ∉ line) :
    getlines (line ++ '\n' :: rest) = line :: getlines rest := by
  induction line with
  | nil => simp [getlines]
  | cons c t ih =>
      have hc : ¬ (c = '\n') := fun hh => h (by simp [hh])
      have ht : '\n' ∉ t := fun hmem => h (List.mem_cons_of_mem _ hmem)
      simp only [List.cons_append, getlines, hc, if_false]
      rw [show t.append ('\n' :: rest) = t ++ '\n' :: rest from rfl, ih ht]

theorem strOf_repr (n : Nat) : strOf (Nat.repr n) = Nat.toDigits 10 n := rfl

theorem digitChar_mem (m : Nat) (h : m < 10) :
    Nat.digitChar m ∈ strOf "0123456789" := by
  interval_cases m <;> decide

theorem toDigitsCore_mem (fuel : Nat) : ∀ (n : Nat) (acc : List Char),
    (∀ c ∈ acc, c ∈ strOf "0123456789") →
    ∀ c ∈ Nat.toDigitsCore 10 fuel n acc, c ∈ strOf "0123456789" := by
  induction fuel with
  | zero =>
      intro n acc hacc c hc
      exact hacc c hc
  | succ fuel ih =>
      intro n acc hacc c hc
      rw [Nat.toDigitsCore] at hc
      have hd : Nat.digitChar (n % 10) ∈ strOf "0123456789" :=
        digitChar_mem _ (Nat.mod_lt _ (by norm_num))
      by_cases hz : n / 10 = 0
      · simp only [hz, if_pos rfl] at hc
        rcases List.mem_cons.mp hc with hceq | hmem
        · exact hceq ▸ hd
        · exact hacc c hmem
      · simp only [hz, if_false] at hc
        refine ih (n / 10) (Nat.digitChar (n % 10) :: acc) ?_ c hc
        intro x hx
        rcases List.mem_cons.mp hx with hxeq | hxm
        · exact hxeq ▸ hd
        · exact hacc x hxm

theorem repr_char_mem (n : Nat) :
    ∀ c ∈ strOf (Nat.repr n), c ∈ strOf "0123456789" := by
  rw [strOf_repr]
  exact toDigitsCore_mem (n + 1) n [] (by simp)

theorem repr_no_char (n : Nat) (c : Char) (hc : c ∉ strOf "0123456789") :
    c ∉ strOf (Nat.repr n) :=
  fun h => hc (repr_char_mem n c h)

theorem isPrefixOfB_cons_ne (a b : Char) (as bs : Str) (h : ¬ (a = b)) :
    isPrefixOfB (a :: as) (b :: bs) = false := by
  simp [isPrefixOfB, h]

theorem containsSub_skip (m : Str) (x r : Str) (hx : '"' ∉ x) :
    containsSub ('"' :: m) (x ++ r) = containsSub ('"' :: m) r := by
  induction x with
  | nil => simp
  | cons c t ih =>
      have hc : ¬ ('"' = c) := fun hh => hx (by simp [hh.symm])
      have ht : '"' ∉ t := fun hmem => hx (List.mem_cons_of_mem _ hmem)
      simp only [List.cons_append, containsSub, isPrefixOfB_cons_ne '"' c _ _ hc,
        Bool.false_or]
      rw [show t.append r = t ++ r from rfl, ih ht]

theorem containsSub_quote_step (m r : Str) :
    containsSub ('"' :: m) ('"' :: r)
      = (isPrefixOfB m r || containsSub ('"' :: m) r) := by
  simp [containsSub, isPrefixOfB]

theorem isPrefixOfB_quote_boundary (p q w r : Str) (hp : '"' ∉ p)
    (hw : '"' ∉ w) :
    isPrefixOfB (p ++ '"' :: q) (w ++ '"' :: r) = true →
      w = p ∧ isPrefixOfB q r = true := by
  induction p generalizing w with
  | nil =>
      cases w with
      | nil => simp [isPrefixOfB]
      | cons wc wt =>
          intro h
          exfalso
          have hwc : ¬ ('"' = wc) := fun hh => hw (by simp [hh.symm])
          simp [isPrefixOfB_cons_ne '"' wc _ _ hwc] at h
  | cons pc pt ih =>
      cases w with
      | nil =>
          intro h
          exfalso
          have hpc : ¬ (pc = '"') := fun hh => hp (by simp [hh])
          simp [isPrefixOfB_cons_ne pc '"' _ _ hpc] at h
      | cons wc wt =>
          intro h
          simp only [List.cons_append, isPrefixOfB, Bool.and_eq_true,
            decide_eq_true_eq] at h
          have hpt : '"' ∉ pt := fun hmem => hp (List.mem_cons_of_mem _ hmem)
          have hwt : '"' ∉ wt := fun hmem => hw (List.mem_cons_of_mem _ hmem)
          obtain ⟨heq, hrest⟩ := h
          obtain ⟨hw2, hq⟩ := ih wt hpt hwt hrest
          exact ⟨by rw [heq, hw2], hq⟩

theorem containsSub_singleton (c : Char) (s : Str) (h : c ∈ s) :
    containsSub [c] s = true := by
  induction s with
  | nil => simp at h
  | cons a rest ih =>
      rcases List.mem_cons.mp h with hceq | hmem
      · simp [containsSub, isPrefixOfB, hceq]
      · simp [containsSub, ih hmem]

end RedisClone

namespace RedisClone

theorem containsSub_skip_cons (m : Str) (c : Char) (r : Str) (hc : ¬ ('"' = c)) :
    containsSub ('"' :: m) (c :: r) = containsSub ('"' :: m) r := by
  simp [containsSub, isPrefixOfB_cons_ne '"' c _ _ hc]

theorem isPrefixOfB_data_colon (r : Str) :
    isPrefixOfB (strOf "data" ++ '"' :: strOf ":") (':' :: r) = false := by
  rw [show strOf "data" ++ '"' :: strOf ":"
    = 'd' :: (strOf "ata" ++ '"' :: strOf ":") from rfl]
  exact isPrefixOfB_cons_ne 'd' ':' _ _ (by decide)

theorem entry_line_no_marker (k v tail : Str) (hk : '"' ∉ k) (hv : '"' ∉ v)
    (hkd : k ≠ strOf "data")
    (ht1 : isPrefixOfB (strOf ":") tail = false)
    (ht2 : isPrefixOfB (strOf "data" ++ '"' :: strOf ":") tail = false)
    (ht3 : containsSub ('"' :: (strOf "data" ++ '"' :: strOf ":")) tail = false) :
    containsSub ('"' :: (strOf "data" ++ '"' :: strOf ":"))
      (entry_line (k, v) ++ tail) = false := by
  have hfirst : ∀ (w r2 : Str), '"' ∉ w → w ≠ strOf "data" →
      isPrefixOfB (strOf "data" ++ '"' :: strOf ":") (w ++ '"' :: r2) = false := by
    intro w r2 hw hne
    cases hp : isPrefixOfB (strOf "data" ++ '"' :: strOf ":") (w ++ '"' :: r2) with
    | false => rfl
    | true =>
        obtain ⟨hw2, _⟩ :=
          isPrefixOfB_quote_boundary (strOf "data") (strOf ":") w r2 (by decide) hw hp
        exact absurd hw2 hne
  have hsecond : ∀ (w : Str), '"' ∉ w →
      isPrefixOfB (strOf "data" ++ '"' :: strOf ":") (w ++ '"' :: tail) = false := by
    intro w hw
    cases hp : isPrefixOfB (strOf "data" ++ '"' :: strOf ":") (w ++ '"' :: tail) with
    | false => rfl
    | true =>
        obtain ⟨_, hq⟩ :=
          isPrefixOfB_quote_boundary (strOf "data") (strOf ":") w tail (by decide) hw hp
        rw [ht1] at hq
        exact absurd hq (by simp)
  have hshape : entry_line (k, v) ++ tail
      = strOf "    " ++ '"' :: (k ++ '"' :: (':' :: ' ' :: '"' :: (v ++ '"' :: tail))) := by
    simp [entry_line, strOf]
  rw [hshape]
  rw [containsSub_skip _ (strOf "    ") _ (by decide)]
  rw [containsSub_quote_step]
  rw [hfirst k _ hk hkd, Bool.false_or]
  rw [containsSub_skip _ k _ hk]
  rw [containsSub_quote_step]
  rw [isPrefixOfB_data_colon, Bool.false_or]
  rw [containsSub_skip_cons _ ':' _ (by decide)]
  rw [containsSub_skip_cons _ ' ' _ (by decide)]
  rw [containsSub_quote_step]
  rw [hsecond v hv, Bool.false_or]
  rw [containsSub_skip _ v _ hv]
  rw [containsSub_quote_step]
  rw [ht2, Bool.false_or]
  exact ht3

theorem entry_line_has_quote (e : Str × Str) (tail : Str) :
    containsSub (strOf "\"") (entry_line e ++ tail) = true := by
  obtain ⟨k, v⟩ := e
  have hshape : entry_line (k, v) ++ tail
      = strOf "    " ++ '"' :: (k ++ '"' :: (':' :: ' ' :: '"' :: (v ++ '"' :: tail))) := by
    simp [entry_line, strOf]
  rw [hshape]
  refine containsSub_singleton '"' _ ?_
  exact List.mem_append_right _ (List.mem_cons_self _ _)

theorem parse_kv_entry (k v tail : Str) (hk : '"' ∉ k) (hv : '"' ∉ v) :
    parse_kv_line (entry_line (k, v) ++ tail) = some (k, v) := by
  have hshape : entry_line (k, v) ++ tail
      = strOf "    " ++ '"' :: (k ++ '"' :: ([':', ' '] ++ '"' :: (v ++ '"' :: tail))) := by
    simp [entry_line, strOf]
  rw [parse_kv_line, hshape]
  rw [splitAtChar_append '"' (strOf "    ") _ (by decide)]
  simp only
  rw [splitAtChar_append '"' k _ hk]
  simp only
  rw [splitAtChar_append '"' [':', ' '] _ (by decide)]
  simp only
  rw [splitAtChar_append '"' v _ hv]

end RedisClone

namespace RedisClone

/-- The lines of the data section as they appear in the file: every entry
but the last carries its separating comma; an empty keyspace leaves one
empty line (from the lone newline the writer emits before the brace). -/
def data_lines : Keyspace → List Str
  | [] => [[]]
  | [e] => [entry_line e]
  | e :: rest => (entry_line e ++ strOf ",") :: data_lines rest

theorem entry_line_no_newline (k v : Str) (hk : '\n' ∉ k) (hv : '\n' ∉ v) :
    '\n' ∉ entry_line (k, v) := by
  intro hmem
  simp only [entry_line, List.append_assoc, List.mem_append] at hmem
  rcases hmem with h1 | h2 | h3 | h4 | h5
  · exact absurd h1 (by decide)
  · exact hk h2
  · exact absurd h3 (by decide)
  · exact hv h4
  · exact absurd h5 (by decide)

theorem getlines_entries (d : Keyspace)
    (h : ∀ e ∈ d, '\n' ∉ entry_line e) :
    getlines (entries_text d ++ strOf "\n  \x7d\n\x7d\n")
      = data_lines d ++ [strOf "  \x7d", strOf "\x7d"] := by
  induction d with
  | nil =>
      simp only [entries_text, data_lines, List.nil_append]
      decide
  | cons e rest ih =>
      cases rest with
      | nil =>
          simp only [entries_text, data_lines]
          rw [show entry_line e ++ strOf "\n  \x7d\n\x7d\n"
            = entry_line e ++ '\n' :: strOf "  \x7d\n\x7d\n" from by simp [strOf]]
          rw [getlines_cons _ _ (h e (by simp))]
          rw [show getlines (strOf "  \x7d\n\x7d\n")
            = [strOf "  \x7d", strOf "\x7d"] from by decide]
          simp
      | cons e2 t =>
          simp only [entries_text, data_lines]
          have hnl : '\n' ∉ entry_line e ++ strOf "," := by
            intro hmem
            rcases List.mem_append.mp hmem with h1 | h2
            · exact (h e (by simp)) h1
            · exact absurd h2 (by decide)
          rw [show (entry_line e ++ strOf ",\n" ++ entries_text (e2 :: t))
                ++ strOf "\n  \x7d\n\x7d\n"
            = (entry_line e ++ strOf ",")
                ++ '\n' :: (entries_text (e2 :: t) ++ strOf "\n  \x7d\n\x7d\n")
            from by simp [strOf]]
          rw [getlines_cons _ _ hnl]
          rw [ih (fun x hx => h x (by simp [hx]))]
          simp

theorem isPrefixOfB_databoundary_ne (w r2 : Str) (hw : '"' ∉ w)
    (hne : w ≠ strOf "data") :
    isPrefixOfB (strOf "data" ++ '"' :: strOf ":") (w ++ '"' :: r2) = false := by
  cases hp : isPrefixOfB (strOf "data" ++ '"' :: strOf ":") (w ++ '"' :: r2) with
  | false => rfl
  | true =>
      obtain ⟨hw2, _⟩ :=
        isPrefixOfB_quote_boundary (strOf "data") (strOf ":") w r2 (by decide) hw hp
      exact absurd hw2 hne

theorem containsSub_quote_needle_none (m : Str) (s : Str) (hs : '"' ∉ s) :
    containsSub ('"' :: m) s = false := by
  induction s with
  | nil => simp [containsSub, List.isEmpty]
  | cons c t ih =>
      have hc : ¬ ('"' = c) := fun hh => hs (by simp [hh.symm])
      have ht : '"' ∉ t := fun hmem => hs (List.mem_cons_of_mem _ hmem)
      rw [containsSub_skip_cons _ c _ hc]
      exact ih ht

theorem key_count_no_marker (n : Nat) :
    containsSub ('"' :: (strOf "data" ++ '"' :: strOf ":"))
      (strOf "    \"key_count\": " ++ strOf (Nat.repr n)) = false := by
  have hshape : strOf "    \"key_count\": " ++ strOf (Nat.repr n)
      = strOf "    " ++ '"' :: (strOf "key_count"
          ++ '"' :: (':' :: ' ' :: strOf (Nat.repr n))) := by
    simp [strOf]
  rw [hshape]
  rw [containsSub_skip _ (strOf "    ") _ (by decide)]
  rw [containsSub_quote_step]
  rw [isPrefixOfB_databoundary_ne (strOf "key_count") _ (by decide) (by decide)]
  rw [Bool.false_or]
  rw [containsSub_skip _ (strOf "key_count") _ (by decide)]
  rw [containsSub_quote_step]
  rw [isPrefixOfB_data_colon, Bool.false_or]
  rw [containsSub_skip_cons _ ':' _ (by decide)]
  rw [containsSub_skip_cons _ ' ' _ (by decide)]
  exact containsSub_quote_needle_none _ _ (repr_no_char n '"' (by decide))

end RedisClone

namespace RedisClone

theorem store_get_none_of_not_mem (d : Keyspace) (k : Str)
    (h : k ∉ d.map Prod.fst) : store_get d k = none := by
  induction d with
  | nil => rfl
  | cons e rest ih =>
      have h1 : ¬ (e.1 = k) := fun hh => h (by simp [hh])
      have h2 : k ∉ rest.map Prod.fst := fun hm => h (by simp [hm])
      obtain ⟨k1, v1⟩ := e
      simp only [store_get]
      rw [if_neg h1]
      exact ih h2

theorem store_get_foldl_set (entries : Keyspace) :
    ∀ (acc : Keyspace) (k : Str), (entries.map Prod.fst).Nodup →
    store_get (entries.foldl (fun a e => store_set a e.1 e.2) acc) k
      = (match store_get entries k with
         | some v => some v
         | none => store_get acc k) := by
  induction entries with
  | nil =>
      intro acc k _
      simp [store_get]
  | cons e rest ih =>
      intro acc k hnd
      obtain ⟨k1, v1⟩ := e
      simp only [List.map_cons, List.nodup_cons] at hnd
      simp only [List.foldl_cons]
      rw [ih (store_set acc k1 v1) k hnd.2]
      by_cases hk : k1 = k
      · subst hk
        rw [store_get_none_of_not_mem rest k1 hnd.1]
        simp [store_get, store_get_set_self]
      · rw [show store_get ((k1, v1) :: rest) k = store_get rest k from by
          simp [store_get, hk]]
        cases hr : store_get rest k with
        | some v => rfl
        | none => simp [store_get_set_ne acc k1 v1 k hk]

theorem load_lines_tail : load_lines [strOf "  \x7d", strOf "\x7d"] true = id := by
  funext acc
  have f1 : containsSub (strOf "\"data\":") (strOf "  \x7d") = false := by decide
  have f2 : containsSub (strOf "\x7d") (strOf "  \x7d") = true := by decide
  have f3 : containsSub (strOf "\"") (strOf "  \x7d") = false := by decide
  simp [load_lines, f1, f2, f3]

theorem load_lines_data (d : Keyspace) :
    ∀ (acc : Keyspace),
    (∀ e ∈ d, '"' ∉ e.1 ∧ '"' ∉ e.2 ∧ e.1 ≠ strOf "data") →
    load_lines (data_lines d ++ [strOf "  \x7d", strOf "\x7d"]) true acc
      = d.foldl (fun a e => store_set a e.1 e.2) acc := by
  have needle_eq : strOf "\"data\":" = '"' :: (strOf "data" ++ '"' :: strOf ":") := by
    decide
  induction d with
  | nil =>
      intro acc _
      have e1 : containsSub (strOf "\"data\":") ([] : Str) = false := by decide
      have e2 : containsSub (strOf "\x7d") ([] : Str) = false := by decide
      have e3 : parse_kv_line [] = none := by decide
      simp only [data_lines, List.cons_append, List.nil_append, List.foldl_nil]
      rw [load_lines, e1]
      simp only [Bool.not_true, if_false, Bool.false_eq_true]
      rw [if_neg (by simp [e2])]
      rw [e3]
      exact congrFun load_lines_tail acc
  | cons e rest ih =>
      intro acc hq
      obtain ⟨k, v⟩ := e
      obtain ⟨hk, hv, hkd⟩ := hq (k, v) (by simp)
      cases rest with
      | nil =>
          have hm : containsSub (strOf "\"data\":") (entry_line (k, v)) = false := by
            rw [needle_eq]
            have h0 := entry_line_no_marker k v [] hk hv hkd
              (by decide) (by decide) (by decide)
            rwa [List.append_nil] at h0
          have hq1 : containsSub (strOf "\"") (entry_line (k, v)) = true := by
            have h0 := entry_line_has_quote (k, v) []
            rwa [List.append_nil] at h0
          have hp : parse_kv_line (entry_line (k, v)) = some (k, v) := by
            have h0 := parse_kv_entry k v [] hk hv
            rwa [List.append_nil] at h0
          simp only [data_lines, List.cons_append, List.nil_append, List.foldl_cons,
            List.foldl_nil]
          rw [load_lines, hm]
          simp only [Bool.not_true, if_false, Bool.false_eq_true]
          rw [if_neg (by simp [hq1])]
          rw [hp]
          exact congrFun load_lines_tail (store_set acc k v)
      | cons e2 t =>
          have hm : containsSub (strOf "\"data\":")
              (entry_line (k, v) ++ strOf ",") = false := by
            rw [needle_eq]
            exact entry_line_no_marker k v (strOf ",") hk hv hkd
              (by decide) (by decide) (by decide)
          have hq1 : containsSub (strOf "\"")
              (entry_line (k, v) ++ strOf ",") = true :=
            entry_line_has_quote (k, v) (strOf ",")
          have hp : parse_kv_line (entry_line (k, v) ++ strOf ",") = some (k, v) :=
            parse_kv_entry k v (strOf ",") hk hv
          simp only [data_lines, List.cons_append, List.foldl_cons]
          rw [load_lines, hm]
          simp only [Bool.not_true, if_false, Bool.false_eq_true]
          rw [if_neg (by simp [hq1])]
          rw [hp]
          exact ih (store_set acc k v) (fun x hx => hq x (by simp [hx]))

end RedisClone

namespace RedisClone

theorem getlines_snapshot (ts : Str) (d : Keyspace) (hts : '\n' ∉ ts)
    (hd : ∀ e ∈ d, '\n' ∉ entry_line e) :
    getlines (snapshot_content ts d)
      = strOf "\x7b"
        :: strOf "  \"metadata\": \x7b"
        :: strOf "    \"version\": \"1.0\","
        :: (strOf "    \"timestamp\": \"" ++ ts ++ strOf "\",")
        :: (strOf "    \"key_count\": " ++ strOf (Nat.repr d.length))
        :: strOf "  \x7d,"
        :: strOf "  \"data\": \x7b"
        :: (data_lines d ++ [strOf "  \x7d", strOf "\x7d"]) := by
  have hts_line : '\n' ∉ strOf "    \"timestamp\": \"" ++ ts ++ strOf "\"," := by
    intro hmem
    rcases List.mem_append.mp hmem with h1 | h2
    · rcases List.mem_append.mp h1 with h3 | h4
      · exact absurd h3 (by decide)
      · exact hts h4
    · exact absurd h2 (by decide)
  have hkc_line : '\n' ∉ strOf "    \"key_count\": " ++ strOf (Nat.repr d.length) := by
    intro hmem
    rcases List.mem_append.mp hmem with h1 | h2
    · exact absurd h1 (by decide)
    · exact repr_no_char d.length '\n' (by decide) h2
  have hshape : snapshot_content ts d
      = strOf "\x7b" ++ '\n'
        :: (strOf "  \"metadata\": \x7b" ++ '\n'
        :: (strOf "    \"version\": \"1.0\"," ++ '\n'
        :: ((strOf "    \"timestamp\": \"" ++ ts ++ strOf "\",") ++ '\n'
        :: ((strOf "    \"key_count\": " ++ strOf (Nat.repr d.length)) ++ '\n'
        :: (strOf "  \x7d," ++ '\n'
        :: (strOf "  \"data\": \x7b" ++ '\n'
        :: (entries_text d ++ strOf "\n  \x7d\n\x7d\n"))))))) := by
    simp [snapshot_content, strOf]
  rw [hshape]
  rw [getlines_cons _ _ (by decide)]
  rw [getlines_cons _ _ (by decide)]
  rw [getlines_cons _ _ (by decide)]
  rw [getlines_cons _ _ hts_line]
  rw [getlines_cons _ _ hkc_line]
  rw [getlines_cons _ _ (by decide)]
  rw [getlines_cons _ _ (by decide)]
  rw [getlines_entries d hd]

theorem load_lines_skip (line : Str) (rest : List Str) (acc : Keyspace)
    (hm : containsSub (strOf "\"data\":") line = false) :
    load_lines (line :: rest) false acc = load_lines rest false acc := by
  rw [load_lines, hm]
  simp

theorem load_lines_marker (line : Str) (rest : List Str) (acc : Keyspace)
    (inData : Bool) (hm : containsSub (strOf "\"data\":") line = true) :
    load_lines (line :: rest) inData acc = load_lines rest true acc := by
  rw [load_lines, hm]
  simp

/-- Counterexample for C3: the keyspace holding the single pair
(data, v) -- a non-empty, whitespace-free, quote-free, newline-free key and
value -- saves to a file whose entry line itself contains the data-section
marker, so the loader skips it and the pair is lost. -/
theorem snapshot_roundtrip_counterexample :
    store_get (load_snapshot_from_file (some (snapshot_content
        (strOf "2024-01-01T00:00:00Z") [(strOf "data", strOf "v")])))
      (strOf "data") = none ∧
    store_get [(strOf "data", strOf "v")] (strOf "data") = some (strOf "v") := by
  decide

/-- Claim C3 as amended: for every keyspace whose keys and values are
non-empty, whitespace-free, free of double quotes, and whose keys are all
different from the literal string data, saving a snapshot and loading it
into a fresh keyspace restores exactly the saved mapping. -/
theorem snapshot_roundtrip_amended (ts : Str) (d : Keyspace)
    (hts_nl : '\n' ∉ ts) (hts_q : '"' ∉ ts)
    (hnd : (d.map Prod.fst).Nodup)
    (hcond : ∀ e ∈ d, e.1 ≠ [] ∧ e.2 ≠ [] ∧
      (∀ c ∈ e.1, isWs c = false) ∧ (∀ c ∈ e.2, isWs c = false) ∧
      '"' ∉ e.1 ∧ '"' ∉ e.2 ∧ e.1 ≠ strOf "data") :
    ∀ k, store_get (load_snapshot_from_file (some (snapshot_content ts d))) k
      = store_get d k := by
  intro k
  have needle_eq : strOf "\"data\":" = '"' :: (strOf "data" ++ '"' :: strOf ":") := by
    decide
  have hdnl : ∀ e ∈ d, '\n' ∉ entry_line e := by
    intro e he
    obtain ⟨_, _, hw1, hw2, _, _, _⟩ := hcond e he
    obtain ⟨k1, v1⟩ := e
    exact entry_line_no_newline k1 v1
      (fun hm => absurd (hw1 '\n' hm) (by decide))
      (fun hm => absurd (hw2 '\n' hm) (by decide))
  have hm4 : containsSub (strOf "\"data\":")
      (strOf "    \"timestamp\": \"" ++ ts ++ strOf "\",") = false := by
    rw [needle_eq]
    have h0 := entry_line_no_marker (strOf "timestamp") ts (strOf ",")
      (by decide) hts_q (by decide) (by decide) (by decide) (by decide)
    rw [show entry_line (strOf "timestamp", ts) ++ strOf ","
      = strOf "    \"timestamp\": \"" ++ ts ++ strOf "\","
      from by simp [entry_line, strOf]] at h0
    exact h0
  have hm5 : containsSub (strOf "\"data\":")
      (strOf "    \"key_count\": " ++ strOf (Nat.repr d.length)) = false := by
    rw [needle_eq]
    exact key_count_no_marker d.length
  rw [load_snapshot_from_file]
  rw [getlines_snapshot ts d hts_nl hdnl]
  rw [load_lines_skip _ _ _ (by decide)]
  rw [load_lines_skip _ _ _ (by decide)]
  rw [load_lines_skip _ _ _ (by decide)]
  rw [load_lines_skip _ _ _ hm4]
  rw [load_lines_skip _ _ _ hm5]
  rw [load_lines_skip _ _ _ (by decide)]
  rw [load_lines_marker _ _ _ _ (by decide)]
  rw [load_lines_data d [] (fun e he =>
    ⟨(hcond e he).2.2.2.2.1, (hcond e he).2.2.2.2.2.1, (hcond e he).2.2.2.2.2.2⟩)]
  rw [store_get_foldl_set d [] k hnd]
  cases hr : store_get d k with
  | some v => rfl
  | none => rfl

/-- Witness for the amended C3: a two-entry keyspace round-trips through
the snapshot file. -/
theorem snapshot_roundtrip_amended_witness :
    store_get (load_snapshot_from_file (some (snapshot_content
        (strOf "2024-01-01T00:00:00Z")
        [(strOf "k1", strOf "v1"), (strOf "k2", strOf "v2")])))
      (strOf "k1") = some (strOf "v1") := by
  rw [snapshot_roundtrip_amended (strOf "2024-01-01T00:00:00Z")
    [(strOf "k1", strOf "v1"), (strOf "k2", strOf "v2")]
    (by decide) (by decide) (by decide) (by decide)]
  decide

end RedisClone

namespace RedisClone

/-- Counterexample for C1: with AOF enabled per the spec and both files
present, the spec's recovery order replays the AOF (yielding key a), but
the constructor only ever loads the snapshot (yielding key b): the AOF is
not consulted, let alone authoritative. -/
theorem startup_ignores_aof_counterexample :
    startup_keyspace ⟨some (strOf "SET a 1\n"),
        some (snapshot_content (strOf "2024-01-01T00:00:00Z")
          [(strOf "b", strOf "2")])⟩
      ≠ startup_keyspace_spec true ⟨some (strOf "SET a 1\n"),
        some (snapshot_content (strOf "2024-01-01T00:00:00Z")
          [(strOf "b", strOf "2")])⟩ ∧
    store_get (startup_keyspace ⟨some (strOf "SET a 1\n"),
        some (snapshot_content (strOf "2024-01-01T00:00:00Z")
          [(strOf "b", strOf "2")])⟩) (strOf "a") = none ∧
    store_get (startup_keyspace_spec true ⟨some (strOf "SET a 1\n"),
        some (snapshot_content (strOf "2024-01-01T00:00:00Z")
          [(strOf "b", strOf "2")])⟩) (strOf "a") = some (strOf "1") := by
  decide

/-- Claim C1 as amended: startup never consults the AOF file -- the
recovered keyspace depends only on data/dump.json, loaded through
load_snapshot_from_file when present, and is empty when that file is
absent. -/
theorem startup_loads_snapshot_only (aof aof2 dump : Option Str) :
    startup_keyspace ⟨aof, dump⟩ = startup_keyspace ⟨aof2, dump⟩ ∧
    startup_keyspace ⟨aof, dump⟩ = load_snapshot_from_file dump ∧
    startup_keyspace ⟨aof, none⟩ = [] :=
  ⟨rfl, rfl, rfl⟩

end RedisClone
